import Mathlib

/-!
Verification of the composite-with-iterator module
(`src/structural/composite-with-iterator/index.ts`, the revision with the
lazy depth-first and breadth-first iterators).

The tree of `Box` (container) and `Product` (leaf) objects is embedded as a
nested inductive type.  The two lazy iterators keep an array of `Component`
(`lifoStack` for depth-first, `fifoQueue` for breadth-first); we model those
arrays as Lean lists holding the elements in the same order as the
TypeScript array (index 0 first).  `Array.pop`/`Array.push` therefore act on
the *end* of the list and `Array.shift` on its head.
-/

namespace CompositeIterator

/-- `iteratorType` field of `Box`: selects the traversal strategy built by
`getIterator()`. -/
inductive IterType where
  | depthFirstSearch
  | breadthFirstSearch
deriving DecidableEq, Repr

/-- The `Component` hierarchy: `Box` (a container with a `name`, an
`iteratorType` and a `children` array) and `Product` (a leaf with a
`name`). -/
inductive Component where
  | box (name : String) (iteratorType : IterType) (children : List Component)
  | product (name : String)
deriving Repr

/-- `getBox()` discriminator: it returns the box itself (truthy) on a `Box`
and the sentinel `0` (falsy) on a `Product`.  We record only the truthiness
used by callers (`Boolean(nextItem.getBox())`, `nextElementAsBox != 0`). -/
def Component.isBox : Component → Bool
  | .box _ _ _ => true
  | .product _ => false

/-- `getItems()` on a `Box` returns its `children`; `Product` has none
(the base class has no such member, callers reach it only behind an
`isBox` test, where we return `[]`). -/
def Component.getItems : Component → List Component
  | .box _ _ children => children
  | .product _ => []

/-- `getName()`. -/
def Component.getName : Component → String
  | .box name _ _ => name
  | .product name => name

/-- `Product.netPrice()` is the constant `20`: the fixed value of every
leaf. -/
def productNetPrice : Nat := 20

mutual

/-- Number of nodes in the subtree rooted at a component (measure used for
termination of the traversal loops). -/
def Component.size : Component → Nat
  | .box _ _ children => 1 + sizeList children
  | .product _ => 1

/-- Total number of nodes in the subtrees of a list of components. -/
def sizeList : List Component → Nat
  | [] => 0
  | c :: cs => c.size + sizeList cs

end

theorem Component.size_pos (c : Component) : 0 < c.size := by
  cases c <;> simp [Component.size]

theorem sizeList_append (a b : List Component) :
    sizeList (a ++ b) = sizeList a + sizeList b := by
  induction a with
  | nil => simp [sizeList]
  | cons c cs ih => simp [sizeList, ih]; omega

theorem sizeList_reverse (l : List Component) :
    sizeList l.reverse = sizeList l := by
  induction l with
  | nil => rfl
  | cons c cs ih =>
    simp [List.reverse_cons, sizeList_append, sizeList, ih]; omega

theorem sizeList_getItems_lt (c : Component) :
    sizeList c.getItems < c.size := by
  cases c <;> simp [Component.getItems, Component.size, sizeList]

/-- `IteratorOutOfBoundsError`, the single error class of the module
("The iteration has already terminated"). -/
inductive IterError where
  | iteratorOutOfBoundsError
deriving DecidableEq, Repr

/-! ## LazyDepthFirstSearchIterator

Its state is the array `lifoStack`; the stack top is the *last* array
element (`Array.pop`/`Array.push` work at the end). -/

/-- `buildStack()`: `this.lifoStack = [...this.collection.getItems()].reverse()`
— a fresh copy of the children array, reversed, so the first child sits on
top of the stack. -/
def buildStack (collection : List Component) : List Component :=
  collection.reverse

/-- `isDone()`: `this.lifoStack.length === 0`. -/
def dfsIsDone (lifoStack : List Component) : Bool :=
  lifoStack.length == 0

/-- `next()`: `Array.pop` the top; when the popped element is a `Box`
(`getBox() != 0`), push its children reversed (`[...items].reverse()`).
Popping an empty stack yields `undefined` (modelled `none`) and leaves the
stack empty.  Returns the popped element together with the updated stack. -/
def dfsNext (lifoStack : List Component) : Option Component × List Component :=
  match lifoStack.getLast? with
  | none => (none, lifoStack)
  | some currentElement =>
      if currentElement.isBox then
        (some currentElement,
          lifoStack.dropLast ++ currentElement.getItems.reverse)
      else
        (some currentElement, lifoStack.dropLast)

/-- `currentItem()`: throws `IteratorOutOfBoundsError` when `isDone()`,
otherwise returns the stack top (`lifoStack[lifoStack.length - 1]`). -/
def dfsCurrentItem (lifoStack : List Component) : Except IterError Component :=
  if h : dfsIsDone lifoStack then .error .iteratorOutOfBoundsError
  else
    .ok (lifoStack.getLast (by
      intro hnil
      exact h (by simp [dfsIsDone, hnil])))

/-- `first()`: rebuilds the stack from the current children of the collection and
returns `this.currentItem()` — which throws when the rebuilt stack is
empty.  Result: the reported node paired with the rebuilt stack. -/
def dfsFirst (collection : List Component) :
    Except IterError (Component × List Component) :=
  (dfsCurrentItem (buildStack collection)).map
    (fun x => (x, buildStack collection))

/-! ## LazyBreadthFirstSearchIterator

State: the array `fifoQueue`; `Array.shift` removes the head,
`Array.push` appends at the end. -/

/-- `buildQueue()`: `this.fifoQueue = [...this.collection.getItems()]`. -/
def buildQueue (collection : List Component) : List Component :=
  collection

/-- `isDone()`: `this.fifoQueue.length === 0`. -/
def bfsIsDone (fifoQueue : List Component) : Bool :=
  fifoQueue.length == 0

/-- `next()`: `Array.shift` the front; when it is a `Box`, append its
children (`push(...items)`, original order) at the back; shifting an empty
queue returns `undefined` (`none`). -/
def bfsNext (fifoQueue : List Component) : Option Component × List Component :=
  match fifoQueue with
  | [] => (none, [])
  | nextElement :: rest =>
      if nextElement.isBox then
        (some nextElement, rest ++ nextElement.getItems)
      else
        (some nextElement, rest)

/-- `currentItem()`: returns `this.fifoQueue[0]` — `undefined` (`none`) on
an empty queue; unlike the depth-first iterator it never throws. -/
def bfsCurrentItem (fifoQueue : List Component) : Option Component :=
  fifoQueue.head?

/-- `first()`: rebuilds the queue and returns `this.fifoQueue[0]`. -/
def bfsFirst (collection : List Component) :
    Option Component × List Component :=
  (buildQueue collection |>.head?, buildQueue collection)

/-! ## Traversal runs

Repeatedly applying `next()` until `isDone()`, recording each element the
driving loop sees via `currentItem()`/the value returned by `next()` (they
coincide: `currentItem()` reads the node that the following `next()`
removes). -/

theorem sizeList_eq_of_getLast? {l : List Component} {x : Component}
    (h : l.getLast? = some x) :
    sizeList l = sizeList l.dropLast + x.size := by
  have hne : l ≠ [] := by
    intro hnil; subst hnil; simp at h
  have hx : x = l.getLast hne := by
    have := List.getLast?_eq_getLast l hne
    rw [h] at this; exact Option.some_injective _ this
  subst hx
  conv_lhs => rw [← List.dropLast_append_getLast hne]
  simp [sizeList_append, sizeList]

theorem dfs_step_size {l : List Component} {x : Component}
    (h : l.getLast? = some x) :
    sizeList (l.dropLast ++ (if x.isBox then x.getItems.reverse else [])) <
      sizeList l := by
  rw [sizeList_eq_of_getLast? h, sizeList_append]
  have hlt : sizeList (if x.isBox then x.getItems.reverse else []) < x.size := by
    by_cases hb : x.isBox <;> simp [hb, sizeList_reverse, sizeList]
    · exact sizeList_getItems_lt x
    · exact x.size_pos
  omega

theorem bfs_step_size (x : Component) (rest : List Component) :
    sizeList (rest ++ (if x.isBox then x.getItems else [])) <
      sizeList (x :: rest) := by
  simp [sizeList_append, sizeList]
  have hlt : sizeList (if x.isBox then x.getItems else []) < x.size := by
    by_cases hb : x.isBox <;> simp [hb, sizeList]
    · exact sizeList_getItems_lt x
    · exact x.size_pos
  omega

/-- The sequence of nodes reported by driving the depth-first iterator
from the stack `lifoStack` to exhaustion. -/
def dfsVisit (lifoStack : List Component) : List Component :=
  match h : lifoStack.getLast? with
  | none => []
  | some x =>
      x :: dfsVisit (lifoStack.dropLast ++
        (if x.isBox then x.getItems.reverse else []))
termination_by sizeList lifoStack
decreasing_by exact dfs_step_size h

/-- The sequence of nodes reported by driving the breadth-first iterator
from the queue `fifoQueue` to exhaustion. -/
def bfsVisit (fifoQueue : List Component) : List Component :=
  match fifoQueue with
  | [] => []
  | x :: rest =>
      x :: bfsVisit (rest ++ (if x.isBox then x.getItems else []))
termination_by sizeList fifoQueue
decreasing_by exact bfs_step_size _ _

/-! ## Box.netPrice

`for (iterator.first(); !iterator.isDone(); iterator.next())` with body
`if (!Boolean(currentItem().getBox())) total += currentItem().netPrice()`.
`Product.netPrice()` is the constant `20`; `Box` elements contribute
nothing.  With the depth-first strategy `first()` throws on a childless
box, so the whole computation throws there. -/

/-- The running total accumulated by the `netPrice` loop over a depth-first
stack: the stack top contributes `productNetPrice` when it is a leaf,
then `next()` replaces it by its children. -/
def dfsSumLoop (lifoStack : List Component) : Nat :=
  match h : lifoStack.getLast? with
  | none => 0
  | some x =>
      (if x.isBox then 0 else productNetPrice) +
        dfsSumLoop (lifoStack.dropLast ++
          (if x.isBox then x.getItems.reverse else []))
termination_by sizeList lifoStack
decreasing_by exact dfs_step_size h

/-- The running total accumulated by the `netPrice` loop over a
breadth-first queue. -/
def bfsSumLoop (fifoQueue : List Component) : Nat :=
  match fifoQueue with
  | [] => 0
  | x :: rest =>
      (if x.isBox then 0 else productNetPrice) +
        bfsSumLoop (rest ++ (if x.isBox then x.getItems else []))
termination_by sizeList fifoQueue
decreasing_by exact bfs_step_size _ _

/-- `netPrice()`.  `Product.netPrice()` returns `20`.  `Box.netPrice()`
builds the iterator selected by `iteratorType` and drives it:
`iterator.first()` (which, for the depth-first iterator, throws on a
childless box), then the guarded accumulation loop. -/
def Component.netPrice : Component → Except IterError Nat
  | .product _ => .ok productNetPrice
  | .box _ ty children =>
      match ty with
      | .depthFirstSearch =>
          match dfsFirst children with
          | .error e => .error e
          | .ok _ => .ok (dfsSumLoop (buildStack children))
      | .breadthFirstSearch =>
          .ok (bfsSumLoop (buildQueue children))

/-! ## Specification-side notions: reachable leaves, pre-order, depth
levels -/

/-- A `Product` has no children, so the box/leaf branch of the iterators
schedules the same nodes whether or not the leaf guard fires. -/
theorem itemsIf_eq_getItems (x : Component) :
    (if x.isBox then x.getItems else []) = x.getItems := by
  cases x <;> simp [Component.isBox, Component.getItems]

mutual

/-- All `Product` (leaf) nodes reachable from a component, in left-to-right
order; a structural enumeration, so each leaf occurs exactly once. -/
def leavesOf : Component → List Component
  | .product name => [.product name]
  | .box _ _ children => leavesOfList children

/-- Leaves reachable from the members of a list of components. -/
def leavesOfList : List Component → List Component
  | [] => []
  | c :: cs => leavesOf c ++ leavesOfList cs

end

/-- `leafValue()` of a leaf: `Product.netPrice()`, the constant `20`. -/
def leafValue (_ : Component) : Nat := productNetPrice

mutual

/-- Pre-order enumeration of a subtree: the node itself, then the full
pre-order of each child in order. -/
def preorder : Component → List Component
  | .product name => [.product name]
  | .box name ty children =>
      .box name ty children :: preorderList children

/-- Concatenated pre-orders of a list of components. -/
def preorderList : List Component → List Component
  | [] => []
  | c :: cs => preorder c ++ preorderList cs

end

/-- The nodes lying exactly `d` levels below the members of `l` (depth `0`
is `l` itself). -/
def nodesAtDepth : Nat → List Component → List Component
  | 0, l => l
  | d + 1, l => nodesAtDepth d (l.flatMap Component.getItems)

theorem leavesOfList_append (a b : List Component) :
    leavesOfList (a ++ b) = leavesOfList a ++ leavesOfList b := by
  induction a with
  | nil => simp [leavesOfList]
  | cons c cs ih => simp [leavesOfList, ih]

theorem preorderList_append (a b : List Component) :
    preorderList (a ++ b) = preorderList a ++ preorderList b := by
  induction a with
  | nil => simp [preorderList]
  | cons c cs ih => simp [preorderList, ih]

theorem leavesOf_getItems (x : Component) :
    x.isBox = true → leavesOf x = leavesOfList x.getItems := by
  cases x <;> simp [Component.isBox, Component.getItems, leavesOf]

theorem leavesOf_product (x : Component) :
    x.isBox = false → leavesOf x = [x] ∧ x.getItems = [] := by
  cases x <;> simp [Component.isBox, Component.getItems, leavesOf]

/-! ## Head-form views of the depth-first stack

The `lifoStack` array keeps its top at the end.  For the proofs we use the
reversed view (top at the head); `dfsVisit_eq_head` and
`dfsSumLoop_eq_head` connect the two. -/

theorem dfs_head_step_size (x : Component) (rest : List Component) :
    sizeList ((if x.isBox then x.getItems else []) ++ rest) <
      sizeList (x :: rest) := by
  rw [itemsIf_eq_getItems, sizeList_append]
  have := sizeList_getItems_lt x
  simp [sizeList]
  omega

/-- `dfsVisit` on the reversed stack: pop the head, schedule the popped
children of the popped box (in order) in front of the remaining stack. -/
def dfsVisitHead : List Component → List Component
  | [] => []
  | x :: rest =>
      x :: dfsVisitHead ((if x.isBox then x.getItems else []) ++ rest)
termination_by l => sizeList l
decreasing_by exact dfs_head_step_size _ _

/-- `dfsSumLoop` on the reversed stack. -/
def dfsSumLoopHead : List Component → Nat
  | [] => 0
  | x :: rest =>
      (if x.isBox then 0 else productNetPrice) +
        dfsSumLoopHead ((if x.isBox then x.getItems else []) ++ rest)
termination_by l => sizeList l
decreasing_by exact dfs_head_step_size _ _

theorem getLast?_none_eq_nil {s : List Component}
    (h : s.getLast? = none) : s = [] := by
  cases s with
  | nil => rfl
  | cons a l => simp [List.getLast?_eq_getLast] at h

theorem dropLast_append_of_getLast? {s : List Component} {x : Component}
    (h : s.getLast? = some x) : s.dropLast ++ [x] = s := by
  have hne : s ≠ [] := by
    intro hnil; subst hnil; simp at h
  have hx : s.getLast hne = x := by
    have h2 := List.getLast?_eq_getLast s hne
    rw [h] at h2
    exact (Option.some_injective _ h2).symm
  have := List.dropLast_append_getLast hne
  rw [hx] at this; exact this

theorem reverse_cons_of_getLast? {s : List Component} {x : Component}
    (h : s.getLast? = some x) : s.reverse = x :: s.dropLast.reverse := by
  conv_lhs => rw [← dropLast_append_of_getLast? h]
  simp

theorem dfsVisit_eq_head (s : List Component) :
    dfsVisit s = dfsVisitHead s.reverse := by
  induction s using dfsVisit.induct with
  | case1 s hnone =>
      rw [getLast?_none_eq_nil hnone]
      simp only [List.reverse_nil]
      rw [dfsVisit, dfsVisitHead]
      rfl
  | case2 s x hlast ih =>
      simp only [dite_eq_ite] at ih
      rw [dfsVisit, hlast]
      simp only
      rw [ih, reverse_cons_of_getLast? hlast, dfsVisitHead]
      congr 2
      rw [List.reverse_append]
      by_cases hb : x.isBox <;> simp [hb]

theorem dfsSumLoop_eq_head (s : List Component) :
    dfsSumLoop s = dfsSumLoopHead s.reverse := by
  induction s using dfsSumLoop.induct with
  | case1 s hnone =>
      rw [getLast?_none_eq_nil hnone]
      simp only [List.reverse_nil]
      rw [dfsSumLoop, dfsSumLoopHead]
      rfl
  | case2 s x hlast ih =>
      simp only [dite_eq_ite] at ih
      rw [dfsSumLoop, hlast]
      simp only
      rw [ih, reverse_cons_of_getLast? hlast, dfsSumLoopHead]
      congr 2
      rw [List.reverse_append]
      by_cases hb : x.isBox <;> simp [hb]

/-! ## Traversal semantics -/

theorem preorder_eq_cons (x : Component) :
    preorder x = x :: preorderList x.getItems := by
  cases x <;> simp [preorder, Component.getItems, preorderList]

/-- The depth-first run reports the concatenated pre-orders of the stacked
subtrees (head form). -/
theorem dfsVisitHead_eq_preorderList (l : List Component) :
    dfsVisitHead l = preorderList l := by
  induction l using dfsVisitHead.induct with
  | case1 => rw [dfsVisitHead, preorderList]
  | case2 x rest ih =>
      simp only [dite_eq_ite] at ih
      rw [dfsVisitHead, ih, itemsIf_eq_getItems, preorderList_append,
        preorderList, preorder_eq_cons]
      simp

/-- Total value of the leaves reachable from the members of `l`: the sum of
`leafValue` over `leavesOfList l`. -/
def leafTotal (l : List Component) : Nat :=
  ((leavesOfList l).map leafValue).sum

theorem leafTotal_append (a b : List Component) :
    leafTotal (a ++ b) = leafTotal a + leafTotal b := by
  simp [leafTotal, leavesOfList_append]

theorem leafTotal_cons (x : Component) (rest : List Component) :
    leafTotal (x :: rest) =
      (if x.isBox then 0 else productNetPrice) + leafTotal x.getItems +
        leafTotal rest := by
  cases x <;>
    simp [leafTotal, leavesOfList, leavesOf, Component.isBox,
      Component.getItems, leafValue, leavesOfList_append]

/-- The accumulation performed by the depth-first `netPrice` loop (head
form) equals the total leaf value of the stacked subtrees. -/
theorem dfsSumLoopHead_eq_leafTotal (l : List Component) :
    dfsSumLoopHead l = leafTotal l := by
  induction l using dfsSumLoopHead.induct with
  | case1 => rw [dfsSumLoopHead]; simp [leafTotal, leavesOfList]
  | case2 x rest ih =>
      simp only [dite_eq_ite] at ih
      rw [dfsSumLoopHead, ih, itemsIf_eq_getItems, leafTotal_append,
        leafTotal_cons]
      omega

/-- The accumulation performed by the breadth-first `netPrice` loop equals
the total leaf value of the queued subtrees. -/
theorem bfsSumLoop_eq_leafTotal (l : List Component) :
    bfsSumLoop l = leafTotal l := by
  induction l using bfsSumLoop.induct with
  | case1 => rw [bfsSumLoop]; simp [leafTotal, leavesOfList]
  | case2 x rest ih =>
      simp only [dite_eq_ite] at ih
      rw [bfsSumLoop, ih, itemsIf_eq_getItems, leafTotal_append,
        leafTotal_cons]
      omega

/-- Queue decomposition of the breadth-first run: the whole prefix `a` is
reported first, and its children end up scheduled behind `b`. -/
theorem bfsVisit_append (a : List Component) :
    ∀ b : List Component,
      bfsVisit (a ++ b) = a ++ bfsVisit (b ++ a.flatMap Component.getItems) := by
  induction a with
  | nil => intro b; simp
  | cons x a2 ih =>
      intro b
      rw [List.cons_append, bfsVisit, itemsIf_eq_getItems, List.append_assoc,
        ih (b ++ x.getItems)]
      simp [List.flatMap_cons]

/-- One breadth-first round: the queue is reported in order, followed by
the run over all the children of its members. -/
theorem bfsVisit_level (l : List Component) :
    bfsVisit l = l ++ bfsVisit (l.flatMap Component.getItems) := by
  have h := bfsVisit_append l []
  simpa using h

/-- Level-order decomposition: once `D` exceeds the depth of the queued
forest, the breadth-first run is exactly the concatenation of the depth
levels `0, 1, ..., D - 1` — every node at depth `d` is reported before any
node at depth `d + 1`. -/
theorem bfsVisit_levelOrder (D : Nat) :
    ∀ l : List Component, nodesAtDepth D l = [] →
      bfsVisit l = (List.range D).flatMap (fun d => nodesAtDepth d l) := by
  induction D with
  | zero =>
      intro l h
      rw [nodesAtDepth] at h
      subst h
      rw [bfsVisit]
      simp
  | succ D ih =>
      intro l h
      rw [nodesAtDepth] at h
      have h2 := ih (l.flatMap Component.getItems) h
      rw [bfsVisit_level, h2, List.range_succ_eq_map, List.flatMap_cons,
        List.flatMap_map]
      rfl

/-! ## netPrice characterization -/

theorem bfsVisit_nil : bfsVisit [] = [] := by rw [bfsVisit]

theorem bfsVisit_cons (x : Component) (rest : List Component) :
    bfsVisit (x :: rest) = x :: bfsVisit (rest ++ x.getItems) := by
  rw [bfsVisit, itemsIf_eq_getItems]

/-- `currentItem()` of the depth-first iterator, phrased through
`getLast?`: the error fires exactly when the stack is empty. -/
theorem dfsCurrentItem_eq (s : List Component) :
    dfsCurrentItem s =
      match s.getLast? with
      | none => Except.error IterError.iteratorOutOfBoundsError
      | some x => Except.ok x := by
  cases s with
  | nil => simp [dfsCurrentItem, dfsIsDone]
  | cons a l =>
      rw [List.getLast?_eq_getLast _ (by simp)]
      simp [dfsCurrentItem, dfsIsDone]

theorem dfsFirst_nil : dfsFirst [] = .error .iteratorOutOfBoundsError := by
  simp [dfsFirst, buildStack, dfsCurrentItem_eq, Except.map]

theorem dfsFirst_ne_nil (collection : List Component)
    (h : collection ≠ []) :
    dfsFirst collection =
      .ok (collection.head h, buildStack collection) := by
  have hh : collection.reverse.getLast? = some (collection.head h) := by
    rw [List.getLast?_reverse]
    exact List.head?_eq_head h
  simp [dfsFirst, buildStack, dfsCurrentItem_eq, hh, Except.map]

/-- `Box.netPrice` with the breadth-first strategy: the loop total over the
seeded queue. -/
theorem netPrice_bfs_eq (name : String) (children : List Component) :
    (Component.box name .breadthFirstSearch children).netPrice =
      .ok (leafTotal children) := by
  simp [Component.netPrice, buildQueue, bfsSumLoop_eq_leafTotal]

/-- `Box.netPrice` with the depth-first strategy on a box that has at least
one child. -/
theorem netPrice_dfs_eq (name : String) (children : List Component)
    (h : children ≠ []) :
    (Component.box name .depthFirstSearch children).netPrice =
      .ok (leafTotal children) := by
  simp only [Component.netPrice, dfsFirst_ne_nil children h]
  rw [buildStack, dfsSumLoop_eq_head, List.reverse_reverse,
    dfsSumLoopHead_eq_leafTotal]

/-- `Box.netPrice` with the depth-first strategy on a childless box throws:
`first()` calls `currentItem()` on the freshly built empty stack. -/
theorem netPrice_dfs_nil (name : String) :
    (Component.box name .depthFirstSearch []).netPrice =
      .error .iteratorOutOfBoundsError := by
  simp [Component.netPrice, dfsFirst_nil]

/-! ## BoxWithBrokenBFSIterator (from the test file)

`netPrice()` overridden to add `currentItem().netPrice()` for *every*
visited node, container or leaf.  All boxes in the test object graph are
`BoxWithBrokenBFSIterator` instances with the breadth-first strategy, so a
visited box recursively runs this same aggregation over a fresh
breadth-first iterator of its own. -/

theorem broken_meas_box (name : String) (ty : IterType)
    (children : List Component) :
    2 * sizeList children + 1 <
      2 * (Component.box name ty children).size := by
  simp [Component.size]; omega

theorem broken_meas_item (x : Component) (rest : List Component) :
    2 * x.size < 2 * sizeList (x :: rest) + 1 := by
  simp [sizeList]; omega

theorem broken_meas_queue (x : Component) (rest : List Component) :
    2 * sizeList (rest ++ (if x.isBox then x.getItems else [])) + 1 <
      2 * sizeList (x :: rest) + 1 := by
  have := bfs_step_size x rest
  omega

mutual

/-- `BoxWithBrokenBFSIterator.netPrice()`: a `Product` contributes `20`,
a box runs the unguarded loop over its own breadth-first queue. -/
def brokenNetPrice : Component → Nat
  | .product _ => productNetPrice
  | .box _ _ children => brokenLoop (buildQueue children)
termination_by c => 2 * c.size
decreasing_by
  simp only [buildQueue]
  exact broken_meas_box _ _ _

/-- The unguarded loop: `total += currentItem().netPrice()` for every
visited node, then `next()`. -/
def brokenLoop : List Component → Nat
  | [] => 0
  | x :: rest =>
      brokenNetPrice x + brokenLoop (rest ++ (if x.isBox then x.getItems else []))
termination_by l => 2 * sizeList l + 1
decreasing_by
  · exact broken_meas_item _ _
  · exact broken_meas_queue _ _

end

theorem brokenLoop_nil : brokenLoop [] = 0 := by rw [brokenLoop]

theorem brokenLoop_cons (x : Component) (rest : List Component) :
    brokenLoop (x :: rest) =
      brokenNetPrice x + brokenLoop (rest ++ x.getItems) := by
  rw [brokenLoop, itemsIf_eq_getItems]

theorem brokenNetPrice_product (name : String) :
    brokenNetPrice (.product name) = productNetPrice := by
  rw [brokenNetPrice]

theorem brokenNetPrice_box (name : String) (ty : IterType)
    (children : List Component) :
    brokenNetPrice (.box name ty children) = brokenLoop children := by
  rw [brokenNetPrice, buildQueue]

/-! ## Concrete object graphs from the tests -/

/-- Scenario C tree (BFS visit-pattern test): `A{B{E{F, G}}, C, D}`. -/
def smallBoxE : Component :=
  .box "E" .breadthFirstSearch [.product "F", .product "G"]

def mediumBoxB : Component :=
  .box "B" .breadthFirstSearch [smallBoxE]

def bigBoxA : Component :=
  .box "A" .breadthFirstSearch [mediumBoxB, .product "C", .product "D"]

/-- The 4-leaf tree the broken-BFS test actually builds:
`big box{medium box{p1, p2}, p3, p4}` — two containers only. -/
def brokenTestTree : Component :=
  .box "big box" .breadthFirstSearch
    [.box "medium box" .breadthFirstSearch
        [.product "small box product one", .product "small box product two"],
      .product "big box product one", .product "big box product two"]

/-- The Scenario B tree of the spec: `big box{medium box{small box{p1, p2}},
p3, p4}` — three nested containers around the first two leaves. -/
def scenarioBTree : Component :=
  .box "big box" .breadthFirstSearch
    [.box "medium box" .breadthFirstSearch
        [.box "small box" .breadthFirstSearch
            [.product "product one", .product "product two"]],
      .product "product three", .product "product four"]

/-! ## Box.remove

`Array.indexOf` compares by object identity (`===`), so two structurally
equal but distinct objects never match.  We model object identities as
natural numbers: the `children` array of a box is the list of the identities
of its children, and a separate `valueOf : Nat → Component` map (used only in
the statements) sends each identity to its structural value. -/

/-- `children.indexOf(component)`: index of the first identical element,
`none` for `-1`. -/
def indexOfChild : List Nat → Nat → Option Nat
  | [], _ => none
  | c :: cs, component =>
      if c == component then some 0
      else (indexOfChild cs component).map (· + 1)

/-- `remove(component)`: look up `indexOf`; on `-1` return (no-op),
otherwise `splice(componentIndex, 1)`. -/
def removeChild (children : List Nat) (component : Nat) : List Nat :=
  match indexOfChild children component with
  | none => children
  | some componentIndex => children.eraseIdx componentIndex

theorem indexOfChild_not_mem (children : List Nat) (component : Nat)
    (h : component ∉ children) : indexOfChild children component = none := by
  induction children with
  | nil => rfl
  | cons c cs ih =>
      have hc : (c == component) = false := by
        simp only [List.mem_cons, not_or] at h
        simp [Ne.symm h.1]
      rw [indexOfChild, hc]
      simp only [List.mem_cons, not_or] at h
      rw [ih h.2]
      rfl

theorem removeChild_not_mem (children : List Nat) (component : Nat)
    (h : component ∉ children) : removeChild children component = children := by
  rw [removeChild, indexOfChild_not_mem children component h]

theorem indexOfChild_first (pre post : List Nat) (target : Nat)
    (h : target ∉ pre) :
    indexOfChild (pre ++ target :: post) target = some pre.length := by
  induction pre with
  | nil => simp [indexOfChild]
  | cons c cs ih =>
      have hc : (c == target) = false := by
        simp only [List.mem_cons, not_or] at h
        simp [Ne.symm h.1]
      rw [List.cons_append, indexOfChild, hc]
      simp only [List.mem_cons, not_or] at h
      rw [ih h.2]
      rfl

theorem removeChild_first (pre post : List Nat) (target : Nat)
    (h : target ∉ pre) :
    removeChild (pre ++ target :: post) target = pre ++ post := by
  rw [removeChild, indexOfChild_first pre post target h]
  induction pre with
  | nil => rfl
  | cons c cs ih =>
      simpa [List.eraseIdx] using ih (by
        simp only [List.mem_cons, not_or] at h
        exact h.2)

/-! ## Frame property: iterators never write the tree

To talk about mutation at all we give the traversal a heap: components and
arrays are heap objects named by numeric identities.  `isBox b` says
whether identity `b` is a `Box`, and `childrenArr b` names the `children`
array owned by box `b`.  The heap maps each array identity to its
contents.  The iterator owns a single array — its `lifoStack` or
`fifoQueue` — allocated fresh by `buildStack()`/`buildQueue()` via the
`[...]` spread, hence distinct from the `children` array of every box.  Every
write the iterator performs targets that private array, mirroring the
source, where only `this.lifoStack`/`this.fifoQueue` is ever assigned or
pushed to. -/

structure ObjectGraph where
  isBox : Nat → Bool
  childrenArr : Nat → Nat

structure IterHeapState where
  heap : Nat → List Nat
  stackArr : Nat

/-- Store `v` into array `a`, leaving every other array alone. -/
def writeArr (heap : Nat → List Nat) (a : Nat) (v : List Nat) :
    Nat → List Nat :=
  fun x => if x = a then v else heap x

/-- `buildStack()` of the depth-first iterator over the box `root`:
copy the children array of `root`, reverse the copy, store it in the
private array of the iterator. -/
def dfsBuildStackH (g : ObjectGraph) (root : Nat) (s : IterHeapState) :
    IterHeapState :=
  { s with
    heap := writeArr s.heap s.stackArr ((s.heap (g.childrenArr root)).reverse) }

/-- `next()` of the depth-first iterator on the heap: pop the top of the
private stack; when the popped identity is a box, push a reversed copy of
the children of that box. -/
def dfsNextH (g : ObjectGraph) (s : IterHeapState) :
    Option Nat × IterHeapState :=
  match (s.heap s.stackArr).getLast? with
  | none => (none, s)
  | some x =>
      if g.isBox x then
        (some x,
          { s with
            heap := writeArr s.heap s.stackArr
              ((s.heap s.stackArr).dropLast ++
                (s.heap (g.childrenArr x)).reverse) })
      else
        (some x,
          { s with
            heap := writeArr s.heap s.stackArr
              ((s.heap s.stackArr).dropLast) })

/-- `buildQueue()` of the breadth-first iterator: copy the children array
of `root` into the private array of the iterator. -/
def bfsBuildQueueH (g : ObjectGraph) (root : Nat) (s : IterHeapState) :
    IterHeapState :=
  { s with
    heap := writeArr s.heap s.stackArr (s.heap (g.childrenArr root)) }

/-- `next()` of the breadth-first iterator on the heap: shift the front of
the private queue; when it is a box, append the children of that box. -/
def bfsNextH (g : ObjectGraph) (s : IterHeapState) :
    Option Nat × IterHeapState :=
  match s.heap s.stackArr with
  | [] => (none, s)
  | x :: rest =>
      if g.isBox x then
        (some x,
          { s with
            heap := writeArr s.heap s.stackArr
              (rest ++ s.heap (g.childrenArr x)) })
      else
        (some x, { s with heap := writeArr s.heap s.stackArr rest })

/-- `n` further `next()` steps of the depth-first iterator. -/
def dfsRunH (g : ObjectGraph) : Nat → IterHeapState → IterHeapState
  | 0, s => s
  | n + 1, s => dfsRunH g n (dfsNextH g s).2

/-- `n` further `next()` steps of the breadth-first iterator. -/
def bfsRunH (g : ObjectGraph) : Nat → IterHeapState → IterHeapState
  | 0, s => s
  | n + 1, s => bfsRunH g n (bfsNextH g s).2

theorem dfsNextH_frame (g : ObjectGraph) (s : IterHeapState) :
    (dfsNextH g s).2.stackArr = s.stackArr ∧
      ∀ a, a ≠ s.stackArr → (dfsNextH g s).2.heap a = s.heap a := by
  rw [dfsNextH]
  cases h : (s.heap s.stackArr).getLast? with
  | none => simp
  | some x =>
      by_cases hb : g.isBox x <;> simp [hb, writeArr] <;>
        intro a ha <;> simp [ha]

theorem bfsNextH_frame (g : ObjectGraph) (s : IterHeapState) :
    (bfsNextH g s).2.stackArr = s.stackArr ∧
      ∀ a, a ≠ s.stackArr → (bfsNextH g s).2.heap a = s.heap a := by
  rw [bfsNextH]
  cases h : s.heap s.stackArr with
  | nil => simp
  | cons x rest =>
      by_cases hb : g.isBox x <;> simp [hb, writeArr] <;>
        intro a ha <;> simp [ha]

theorem dfsRunH_frame (g : ObjectGraph) (n : Nat) :
    ∀ s : IterHeapState,
      (dfsRunH g n s).stackArr = s.stackArr ∧
        ∀ a, a ≠ s.stackArr → (dfsRunH g n s).heap a = s.heap a := by
  induction n with
  | zero => intro s; exact ⟨rfl, fun a _ => rfl⟩
  | succ n ih =>
      intro s
      have hstep := dfsNextH_frame g s
      have hrun := ih (dfsNextH g s).2
      rw [dfsRunH]
      constructor
      · rw [hrun.1, hstep.1]
      · intro a ha
        rw [hrun.2 a (by rw [hstep.1]; exact ha), hstep.2 a ha]

theorem bfsRunH_frame (g : ObjectGraph) (n : Nat) :
    ∀ s : IterHeapState,
      (bfsRunH g n s).stackArr = s.stackArr ∧
        ∀ a, a ≠ s.stackArr → (bfsRunH g n s).heap a = s.heap a := by
  induction n with
  | zero => intro s; exact ⟨rfl, fun a _ => rfl⟩
  | succ n ih =>
      intro s
      have hstep := bfsNextH_frame g s
      have hrun := ih (bfsNextH g s).2
      rw [bfsRunH]
      constructor
      · rw [hrun.1, hstep.1]
      · intro a ha
        rw [hrun.2 a (by rw [hstep.1]; exact ha), hstep.2 a ha]

theorem buildH_frame (g : ObjectGraph) (root : Nat) (s : IterHeapState) :
    (dfsBuildStackH g root s).stackArr = s.stackArr ∧
      (bfsBuildQueueH g root s).stackArr = s.stackArr ∧
      ∀ a, a ≠ s.stackArr →
        (dfsBuildStackH g root s).heap a = s.heap a ∧
          (bfsBuildQueueH g root s).heap a = s.heap a := by
  refine ⟨rfl, rfl, fun a ha => ?_⟩
  simp [dfsBuildStackH, bfsBuildQueueH, writeArr, ha]

/-! ## The visit runs are exactly the iterated step functions -/

/-- `dfsVisit` is the run of `next()`: the reported node is the one
`next()` pops, and the run continues on the stack `next()` leaves. -/
theorem dfsVisit_eq_next_run (s : List Component) :
    dfsVisit s =
      match dfsNext s with
      | (none, _) => []
      | (some x, s2) => x :: dfsVisit s2 := by
  rw [dfsNext]
  cases h : s.getLast? with
  | none => rw [dfsVisit, h]
  | some x =>
      rw [dfsVisit, h]
      by_cases hb : x.isBox <;> simp [hb]

/-- `bfsVisit` is the run of `next()` of the breadth-first iterator. -/
theorem bfsVisit_eq_next_run (q : List Component) :
    bfsVisit q =
      match bfsNext q with
      | (none, _) => []
      | (some x, q2) => x :: bfsVisit q2 := by
  cases q with
  | nil => rw [bfsVisit]; rfl
  | cons x rest =>
      cases x with
      | box name ty children =>
          rw [bfsNext]
          simp only [Component.isBox, if_true]
          rw [bfsVisit_cons]
      | product name =>
          rw [bfsNext]
          simp only [Component.isBox, Bool.false_eq_true, if_false]
          rw [bfsVisit_cons]
          simp [Component.getItems]

/-- The loop body of `netPrice` reads the node via `currentItem()` and the
node popped by the following `next()` is that same node: one step of
`dfsSumLoop` adds the `currentItem()` contribution and continues on the
stack `next()` leaves. -/
theorem dfsSumLoop_step (s : List Component) (x : Component)
    (h : dfsCurrentItem s = .ok x) :
    dfsSumLoop s =
      (if x.isBox then 0 else productNetPrice) + dfsSumLoop (dfsNext s).2 := by
  have hx : s.getLast? = some x := by
    rw [dfsCurrentItem_eq] at h
    cases hg : s.getLast? with
    | none => rw [hg] at h; cases h
    | some y => rw [hg] at h; cases h; rfl
  rw [dfsSumLoop, hx, dfsNext, hx]
  by_cases hb : x.isBox <;> simp [hb]

/-- One step of `bfsSumLoop` adds the `currentItem()` contribution and
continues on the queue `next()` leaves. -/
theorem bfsSumLoop_step (q : List Component) (x : Component)
    (h : bfsCurrentItem q = some x) :
    bfsSumLoop q =
      (if x.isBox then 0 else productNetPrice) + bfsSumLoop (bfsNext q).2 := by
  cases q with
  | nil => cases h
  | cons y rest =>
      have hx : y = x := by
        simpa [bfsCurrentItem] using h
      subst hx
      rw [bfsSumLoop, bfsNext]
      by_cases hb : y.isBox <;> simp [hb]

/-! ## Claims -/

/-- C1 (amended).  For every `Box`, `netPrice()` with the breadth-first
strategy returns the sum of `leafValue()` over all `Product` leaves
reachable from the box, each counted exactly once regardless of nesting
depth; with the depth-first strategy the same holds whenever the box has at
least one child.  (As claimed — for every box and both strategies — the
statement fails: on a childless box the depth-first `netPrice()` raises
`IteratorOutOfBoundsError` instead of returning the sum `0`; see the
counterexample.) -/
theorem C1_netPrice_sums_leaves (name : String) (children : List Component) :
    (Component.box name .breadthFirstSearch children).netPrice =
      .ok (((leavesOf (.box name .breadthFirstSearch children)).map
        leafValue).sum) ∧
    (children ≠ [] →
      (Component.box name .depthFirstSearch children).netPrice =
        .ok (((leavesOf (.box name .depthFirstSearch children)).map
          leafValue).sum)) := by
  constructor
  · rw [netPrice_bfs_eq]
    rfl
  · intro h
    rw [netPrice_dfs_eq name children h]
    rfl

/-- C1 witness: scenario A of the tests — a box holding one product sums
to 20 under either strategy. -/
theorem C1_netPrice_sums_leaves_witness :
    (Component.box "box" .breadthFirstSearch
      [.product "product"]).netPrice = .ok 20 ∧
    (Component.box "box" .depthFirstSearch
      [.product "product"]).netPrice = .ok 20 := by
  have h := C1_netPrice_sums_leaves "box" [Component.product "product"]
  exact ⟨h.1, h.2 (by simp)⟩

/-- C1 counterexample: a childless box with the depth-first strategy.  The
sum of leaf values reachable from it is `0`, but `netPrice()` does not
return it — `first()` calls `currentItem()` on the freshly built empty
stack, which throws `IteratorOutOfBoundsError`. -/
theorem C1_netPrice_sums_leaves_cex :
    (Component.box "box" .depthFirstSearch []).netPrice ≠
      .ok (((leavesOf (.box "box" .depthFirstSearch [])).map
        leafValue).sum) ∧
    (Component.box "box" .depthFirstSearch []).netPrice =
      .error .iteratorOutOfBoundsError := by
  refine ⟨?_, netPrice_dfs_nil "box"⟩
  simp [netPrice_dfs_nil]

/-- C2.  Driving the breadth-first iterator of
`bigBoxA = A{B{E{F, G}}, C, D}` reports the nodes named B, C, D, E, F, G in
that order; in general the run over any queue is the concatenation of its
depth levels — all nodes at depth `d` are reported before any node at
depth `d + 1`. -/
theorem C2_bfs_visit_order :
    ((bfsVisit (buildQueue bigBoxA.getItems)).map Component.getName =
        ["B", "C", "D", "E", "F", "G"]) ∧
    (∀ (l : List Component) (D : Nat), nodesAtDepth D l = [] →
        bfsVisit l = (List.range D).flatMap (fun d => nodesAtDepth d l)) := by
  constructor
  · simp [bigBoxA, mediumBoxB, smallBoxE, buildQueue, bfsVisit_cons,
      bfsVisit_nil, Component.getItems, Component.getName]
  · intro l D h
    exact bfsVisit_levelOrder D l h

/-- C2 witness: the scenario C queue has depth < 3, and its run is the
concatenation of levels 0, 1, 2. -/
theorem C2_bfs_visit_order_witness :
    nodesAtDepth 3 (buildQueue bigBoxA.getItems) = [] ∧
    bfsVisit (buildQueue bigBoxA.getItems) =
      (List.range 3).flatMap
        (fun d => nodesAtDepth d (buildQueue bigBoxA.getItems)) :=
  ⟨rfl, C2_bfs_visit_order.2 (buildQueue bigBoxA.getItems) 3 rfl⟩

/-- C3.  `next()` of the depth-first iterator pops the stack top and, when
that node is a container, pushes its children in reverse order before
returning it; consequently the traversal of a stacked forest is the
concatenation of the pre-orders of the stacked subtrees — every visited
node has its entire subtree reported before its next sibling. -/
theorem C3_dfs_preorder :
    (∀ (s : List Component) (x : Component), s.getLast? = some x →
        dfsNext s =
          (some x,
            s.dropLast ++ (if x.isBox then x.getItems.reverse else []))) ∧
    (∀ collection : List Component,
        dfsVisit (buildStack collection) = preorderList collection) ∧
    (∀ (x : Component) (rest : List Component),
        preorderList (x :: rest) = preorder x ++ preorderList rest) := by
    refine ⟨?_, ?_, ?_⟩
    · intro s x h
      rw [dfsNext, h]
      by_cases hb : x.isBox <;> simp [hb]
    · intro collection
      rw [buildStack, dfsVisit_eq_head, List.reverse_reverse,
        dfsVisitHead_eq_preorderList]
    · intro x rest
      rw [preorderList]

/-- C3 witness: popping a singleton leaf stack, and the depth-first visit
of a box holding one product. -/
theorem C3_dfs_preorder_witness :
    dfsNext [Component.product "a"] = (some (Component.product "a"), []) ∧
    dfsVisit (buildStack
        [Component.box "b" .depthFirstSearch [Component.product "a"]]) =
      [Component.box "b" .depthFirstSearch [Component.product "a"],
        Component.product "a"] := by
  constructor
  · have h := C3_dfs_preorder.1 [Component.product "a"]
      (Component.product "a") rfl
    simpa [Component.isBox] using h
  · have h := C3_dfs_preorder.2.1
      [Component.box "b" .depthFirstSearch [Component.product "a"]]
    rw [h]
    rfl

/-- C4 (amended).  A childless box aggregates to total `0` without error
under the breadth-first strategy; under the depth-first strategy
`netPrice()` instead raises `IteratorOutOfBoundsError`, because the
`first()` call in the loop header invokes `currentItem()` on the empty
stack.  (As claimed — total 0 for both strategies, no error — the
statement fails; see the counterexample.) -/
theorem C4_empty_box_netPrice (name : String) :
    (Component.box name .breadthFirstSearch []).netPrice = .ok 0 ∧
    (Component.box name .depthFirstSearch []).netPrice =
      .error .iteratorOutOfBoundsError := by
  refine ⟨?_, netPrice_dfs_nil name⟩
  rw [netPrice_bfs_eq]
  rfl

/-- C4 counterexample: the childless depth-first box does not return
`.ok 0`; it throws. -/
theorem C4_empty_box_netPrice_cex :
    (Component.box "empty box" .depthFirstSearch []).netPrice ≠ .ok 0 ∧
    (Component.box "empty box" .depthFirstSearch []).netPrice =
      .error .iteratorOutOfBoundsError := by
  refine ⟨?_, netPrice_dfs_nil _⟩
  simp [netPrice_dfs_nil]

/-- C5 (amended).  `currentItem()` of the *depth-first* iterator raises
`IteratorOutOfBoundsError` exactly when the traversal is exhausted
(`isDone()`, empty stack) and never otherwise.  `currentItem()` of the
*breadth-first* iterator never raises: it returns the queue front, and on
an exhausted queue the absent sentinel (`undefined`, modelled `none`).
(As claimed — both iterators raising on exhaustion — the statement fails
for the breadth-first iterator; see the counterexample.) -/
theorem C5_currentItem_exhaustion :
    (∀ s : List Component,
        dfsCurrentItem s = .error .iteratorOutOfBoundsError ↔
          dfsIsDone s = true) ∧
    (∀ q : List Component, bfsIsDone q = true → bfsCurrentItem q = none) ∧
    (∀ q : List Component, bfsIsDone q = false →
        ∃ x, bfsCurrentItem q = some x) := by
  refine ⟨?_, ?_, ?_⟩
  · intro s
    cases s with
    | nil => simp [dfsCurrentItem_eq, dfsIsDone]
    | cons a l =>
        rw [dfsCurrentItem_eq, List.getLast?_eq_getLast _ (by simp)]
        simp [dfsIsDone]
  · intro q h
    have hq : q = [] := by
      simpa [bfsIsDone, List.length_eq_zero] using h
    subst hq
    rfl
  · intro q h
    cases q with
    | nil => simp [bfsIsDone] at h
    | cons a l => exact ⟨a, rfl⟩

/-- C5 witness: on the empty stack `currentItem()` throws; on the empty
queue it returns the sentinel. -/
theorem C5_currentItem_exhaustion_witness :
    dfsIsDone [] = true ∧
    dfsCurrentItem [] = .error .iteratorOutOfBoundsError ∧
    bfsIsDone [] = true ∧
    bfsCurrentItem [] = none :=
  ⟨rfl, (C5_currentItem_exhaustion.1 []).mpr rfl, rfl,
    C5_currentItem_exhaustion.2.1 [] rfl⟩

/-- C5 counterexample: the breadth-first iterator over a childless box is
exhausted from the start, yet `currentItem()` does not raise — the source
returns `this.fifoQueue[0]`, i.e. `undefined`, and the translated
function returns the absent sentinel `none` (its result type has no error
outcome at all). -/
theorem C5_currentItem_exhaustion_cex :
    bfsIsDone (buildQueue []) = true ∧
    bfsCurrentItem (buildQueue []) = none :=
  ⟨rfl, rfl⟩

/-- C6 (amended).  `first()` of the depth-first iterator rebuilds the stack
from the current children of the root collection and returns the node then
on top (the first child); but when the root has no children it raises
`IteratorOutOfBoundsError` — it does *not* return the absent sentinel,
because it delegates to `currentItem()`, which throws on the empty stack.
(See the counterexample for the empty case as claimed.) -/
theorem C6_first_rebuilds (collection : List Component) :
    (∀ h : collection ≠ [],
        dfsFirst collection =
          .ok (collection.head h, buildStack collection)) ∧
    (collection = [] →
        dfsFirst collection = .error .iteratorOutOfBoundsError) := by
  constructor
  · intro h
    exact dfsFirst_ne_nil collection h
  · intro h
    subst h
    exact dfsFirst_nil

/-- C6 witness: on a singleton collection `first()` reports that child and
the rebuilt stack. -/
theorem C6_first_rebuilds_witness :
    dfsFirst [Component.product "p"] =
      .ok (Component.product "p", [Component.product "p"]) := by
  have h := (C6_first_rebuilds [Component.product "p"]).1 (by simp)
  simpa [buildStack] using h

/-- C6 counterexample: with no children `first()` raises instead of
returning the absent sentinel. -/
theorem C6_first_rebuilds_cex :
    dfsFirst [] = .error .iteratorOutOfBoundsError :=
  dfsFirst_nil

/-- C7.  Calling `next()` on an exhausted iterator (empty stack/queue)
returns the absent sentinel without error, leaves the state unchanged, and
`isDone()` stays true — for both iterators. -/
theorem C7_next_past_exhaustion (s q : List Component)
    (hs : dfsIsDone s = true) (hq : bfsIsDone q = true) :
    dfsNext s = (none, s) ∧ dfsIsDone (dfsNext s).2 = true ∧
      bfsNext q = (none, q) ∧ bfsIsDone (bfsNext q).2 = true := by
  have hs2 : s = [] := by
    simpa [dfsIsDone, List.length_eq_zero] using hs
  have hq2 : q = [] := by
    simpa [bfsIsDone, List.length_eq_zero] using hq
  subst hs2
  subst hq2
  exact ⟨rfl, rfl, rfl, rfl⟩

/-- C7 witness: the empty stack and queue. -/
theorem C7_next_past_exhaustion_witness :
    dfsIsDone [] = true ∧ bfsIsDone [] = true ∧
    (dfsNext [] = (none, []) ∧
      dfsIsDone (dfsNext ([] : List Component)).2 = true ∧
      bfsNext [] = (none, []) ∧
      bfsIsDone (bfsNext ([] : List Component)).2 = true) :=
  ⟨rfl, rfl, C7_next_past_exhaustion [] [] rfl rfl⟩

/-- C8 (amended).  The naive aggregator (`BoxWithBrokenBFSIterator`), which
adds `netPrice()` of *every* node visited by the breadth-first iterator,
returns the double-counted total `120` on the 4-leaf tree the test
actually builds: `big box{medium box{leaf, leaf}, leaf, leaf}` — one
nesting level less than scenario B.  (On the scenario B tree named by the
claim, with its third nested container, it returns `200`, not `120`; see
the counterexample.) -/
theorem C8_broken_bfs_double_counts :
    brokenNetPrice brokenTestTree = 120 := by
  simp [brokenTestTree, brokenNetPrice_box, brokenNetPrice_product,
    brokenLoop_cons, brokenLoop_nil, Component.getItems, productNetPrice]

/-- C8 counterexample: on the scenario B tree
(`Container→Container→Container{leaf, leaf}` plus two top-level leaves)
the naive breadth-first aggregator yields `200`, not the claimed `120`:
the doubly nested containers are re-counted once more. -/
theorem C8_broken_bfs_double_counts_cex :
    brokenNetPrice scenarioBTree = 200 ∧
    brokenNetPrice scenarioBTree ≠ 120 := by
  have h : brokenNetPrice scenarioBTree = 200 := by
    simp [scenarioBTree, brokenNetPrice_box, brokenNetPrice_product,
      brokenLoop_cons, brokenLoop_nil, Component.getItems, productNetPrice]
  exact ⟨h, by rw [h]; decide⟩

/-- C9.  `Box.remove(child)` removes the first child identical (by object
identity, the `===` of `Array.indexOf`) to the argument; when no child is
identical it is a no-op — in particular, a structurally identical but
distinct object (same `valueOf` image, different identity) removes
nothing. -/
theorem C9_remove_by_identity :
    (∀ (pre post : List Nat) (target : Nat), target ∉ pre →
        removeChild (pre ++ target :: post) target = pre ++ post) ∧
    (∀ (children : List Nat) (target : Nat), target ∉ children →
        removeChild children target = children) ∧
    (∀ (valueOf : Nat → Component) (children : List Nat) (i j : Nat),
        valueOf i = valueOf j → i ∈ children → j ∉ children →
        removeChild children j = children) := by
  refine ⟨removeChild_first, removeChild_not_mem, ?_⟩
  intro valueOf children i j hval hi hj
  exact removeChild_not_mem children j hj

/-- C9 witness: identity 2 is removed from `[1, 2, 3]`; identity 5 — a
distinct object whose structural value equals that of child 2 — removes
nothing. -/
theorem C9_remove_by_identity_witness :
    removeChild [1, 2, 3] 2 = [1, 3] ∧
    removeChild [1, 2, 3] 5 = [1, 2, 3] := by
  constructor
  · have h := C9_remove_by_identity.1 [1] [3] 2 (by decide)
    simpa using h
  · exact C9_remove_by_identity.2.2 (fun _ => Component.product "product")
      [1, 2, 3] 2 5 rfl (by decide) (by decide)

/-- C10.  Traversal never mutates the tree: after `buildStack()` /
`buildQueue()` (run at construction and by `first()`) and any number of
`next()` steps of either iterator, every array other than the private
stack/queue of the iterator — in particular the `children` array of every
box — still holds its original contents.  The hypothesis records that the
private array is fresh (the `[...]` spread allocates a new array), hence
distinct from the `children` array of the box `b`.  `netPrice()` performs
exactly `first()` followed by `next()` steps plus pure reads
(`isDone()`, `currentItem()`), so it is covered. -/
theorem C10_traversal_preserves_children (g : ObjectGraph) (root : Nat)
    (s : IterHeapState) (n : Nat) (b : Nat)
    (hfresh : g.childrenArr b ≠ s.stackArr) :
    (dfsRunH g n (dfsBuildStackH g root s)).heap (g.childrenArr b) =
        s.heap (g.childrenArr b) ∧
      (bfsRunH g n (bfsBuildQueueH g root s)).heap (g.childrenArr b) =
        s.heap (g.childrenArr b) := by
  have hbuild := buildH_frame g root s
  have hd := dfsRunH_frame g n (dfsBuildStackH g root s)
  have hb2 := bfsRunH_frame g n (bfsBuildQueueH g root s)
  constructor
  · rw [hd.2 _ (by rw [hbuild.1]; exact hfresh),
      (hbuild.2.2 _ hfresh).1]
  · rw [hb2.2 _ (by rw [hbuild.2.1]; exact hfresh),
      (hbuild.2.2 _ hfresh).2]

/-- Concrete object graph for the C10 witness: box 0 owns children array
10 holding components 1 and 2; the iterator allocates array 99. -/
def exampleGraph : ObjectGraph :=
  { isBox := fun b => b == 0, childrenArr := fun _ => 10 }

def exampleState : IterHeapState :=
  { heap := fun a => if a = 10 then [1, 2] else [], stackArr := 99 }

/-- C10 witness: five steps of either iterator over the example graph
leave the children array of box 0 unchanged. -/
theorem C10_traversal_preserves_children_witness :
    exampleGraph.childrenArr 0 ≠ exampleState.stackArr ∧
    (dfsRunH exampleGraph 5
        (dfsBuildStackH exampleGraph 0 exampleState)).heap
        (exampleGraph.childrenArr 0) =
      exampleState.heap (exampleGraph.childrenArr 0) ∧
    (bfsRunH exampleGraph 5
        (bfsBuildQueueH exampleGraph 0 exampleState)).heap
        (exampleGraph.childrenArr 0) =
      exampleState.heap (exampleGraph.childrenArr 0) := by
  have h := C10_traversal_preserves_children exampleGraph 0 exampleState 5 0
    (by decide)
  exact ⟨by decide, h.1, h.2⟩

end CompositeIterator
